import Mathlib

/-!
# Verification of the `QuestionnaireProcessor` core of `vcio-mvp`

This file is a shallow embedding, in Lean 4, of the scoring / progress core of
`src/app.py` (class `QuestionnaireProcessor`, the grade codec constants
`GRADE_MAPPING` / `LETTER_MAPPING`, and the `ScoreData` record), together with
theorems settling the frozen claims about that code.

Modelling conventions:
* Python `dict` objects are modelled as association lists (`List (K × V)`) in
  insertion order; `d[k] = v` is `dictInsert`, which overwrites the first entry
  with key `k` in place (as CPython does) and otherwise appends.
* Python exceptions are modelled by `Option`: a function that can raise returns
  `none` on the raising executions (`int(...)` raising `ValueError`, a list
  subscript raising `IndexError`).
* Python `int` and `str` are `Int` and `String`; Python `float` is modelled as
  `ℚ` (the score arithmetic of the source -- sums of small integers and one
  division -- is treated as exact rational arithmetic).
* String helpers (`split('_')`, `upper()`, `startswith`, `strip`) are
  re-implemented over `List Char` so that every definition reduces inside the
  kernel; they model CPython semantics on ASCII data (the only data the
  program produces): `pyInt` accepts an optionally signed run of ASCII digits
  after stripping ASCII whitespace, as `int()` does on such strings.
* The mutable attribute `self._score_cache` (written, never read, by
  `calculate_all_scores`) is modelled by threading the `Processor` state
  through the call and returning its post-state; likewise the answers dict a
  method receives is returned as part of the post-state, so that frame claims
  about (non-)mutation are statements about the embedding, not conventions.
-/

namespace VCIO

/-! ## Python dict primitive operations (association lists) -/

/-- Assignment `d[k] = v` on a CPython dict: replace the value at the first
occurrence of `k`, keeping its position, else append `(k, v)` at the end. -/
def dictInsert {K V : Type} [DecidableEq K] (d : List (K × V)) (k : K) (v : V) :
    List (K × V) :=
  match d with
  | [] => [(k, v)]
  | kv :: rest => if kv.1 = k then (k, v) :: rest else kv :: dictInsert rest k v

/-- Lookup `d[k]` / `k in d` on a dict: value at the first entry with key `k`. -/
def dictLookup {K V : Type} [DecidableEq K] (d : List (K × V)) (k : K) : Option V :=
  match d with
  | [] => none
  | kv :: rest => if kv.1 = k then some kv.2 else dictLookup rest k

/-- Number of entries of `d` carrying key `k` (1 or 0 for a well-formed dict). -/
def keyCount {K V : Type} [DecidableEq K] (d : List (K × V)) (k : K) : Nat :=
  (d.filter (fun kv => decide (kv.1 = k))).length

/-- Insert all pairs of `l` into the dict `d`, in order. -/
def foldInsert {K V : Type} [DecidableEq K] (d : List (K × V)) (l : List (K × V)) :
    List (K × V) :=
  l.foldl (fun d kv => dictInsert d kv.1 kv.2) d

/-! ## Python string primitives -/

/-- `str.split('_')` on the character list: splits at every `'_'`, keeping
empty segments (CPython semantics: `"a__b".split('_') == ['a','','b']`,
`"".split('_') == ['']`). -/
def splitCharList : List Char → List (List Char)
  | [] => [[]]
  | c :: cs =>
    if c = '_' then [] :: splitCharList cs
    else
      match splitCharList cs with
      | [] => [[c]]
      | p :: ps => (c :: p) :: ps

/-- `key.split('_')` as used on answer keys. -/
def splitParts (s : String) : List String :=
  (splitCharList s.data).map (fun l => String.mk l)

/-- `str.upper()` (ASCII range; the grade codec only meets single letters). -/
def pyUpper (s : String) : String :=
  String.mk (s.data.map Char.toUpper)

/-- `str.startswith(pfx)`. -/
def pyStartsWith (s pfx : String) : Bool :=
  pfx.data.isPrefixOf s.data

/-- Value of a nonempty all-ASCII-digit run, else `none`. -/
def digitsVal (cs : List Char) : Option Nat :=
  if cs ≠ [] ∧ cs.all (fun c => c.isDigit) then
    some (cs.foldl (fun n c => 10 * n + (c.toNat - 48)) 0)
  else none

/-- CPython `int(s)` on an underscore-free string (the only shape reaching it
here: `s` is one segment of a `split('_')`): strip ASCII whitespace, then an
optional sign followed by a nonempty digit run; anything else raises
`ValueError`, modelled as `none`. -/
def pyInt (s : String) : Option Int :=
  match (s.data.dropWhile (fun c => c.isWhitespace)).reverse.dropWhile
      (fun c => c.isWhitespace) |>.reverse with
  | [] => none
  | c :: cs =>
    if c = '+' then (digitsVal cs).map (fun n => (n : Int))
    else if c = '-' then (digitsVal cs).map (fun n => -(n : Int))
    else (digitsVal (c :: cs)).map (fun n => (n : Int))

/-- CPython list subscript `xs[i]` with an `int` index: nonnegative indices
from the front, negative indices wrap from the back, `none` = `IndexError`. -/
def pyListGet {α : Type} (xs : List α) (i : Int) : Option α :=
  if 0 ≤ i then xs.get? i.toNat
  else if (-i) ≤ (xs.length : Int) then xs.get? (xs.length - (-i).toNat)
  else none

/-- CPython `round()` on an exact value: round half to even (banker's
rounding), returning an integer. -/
def pyRound (q : ℚ) : ℤ :=
  let f := ⌊q⌋
  let r := q - f
  if r < 1/2 then f
  else if 1/2 < r then f + 1
  else if Even f then f else f + 1

/-! ## Data model (src/app.py, structural conformance of §3 of the spec) -/

/-- The value stored in the answers dict: the selected option (the core only
reads its `option_id`; `option_text` is presentation-only). -/
structure AnswerData where
  option_id : String
  deriving DecidableEq, Repr

/-- One catalog question; `question_id` is `none` when the JSON key is absent
(then `question.get('question_id', ...)` falls back). -/
structure Question where
  question_id : Option String
  deriving DecidableEq, Repr

/-- One question collection of a questionnaire page. -/
structure Collection where
  collection_id : String
  questions : List Question
  deriving DecidableEq, Repr

/-- One questionnaire page: `title` models
`page_data.get('questionnaire_info', {}).get('title', page_key)` being present
(`some`) or falling back to the page key (`none`). -/
structure Page where
  title : Option String
  question_collections : List Collection
  deriving DecidableEq, Repr

/-- `question_files`: the catalog dict, page key to page, in load order. -/
abbrev Catalog := List (String × Page)

/-- The answers dict, composite key to selected option, in insertion order. -/
abbrev Answers := List (String × AnswerData)

/-- `ScoreData` (src/app.py lines 15-20). -/
structure ScoreData where
  indicator_scores : List (String × Int)
  criterion_scores : List (String × ℚ)
  value_scores : List (String × ℚ)
  deriving DecidableEq, Repr

/-- `QuestionnaireProcessor` instance state: the catalog given to `__init__`
and the `_score_cache` attribute (initially `None`). -/
structure Processor where
  question_files : Catalog
  score_cache : Option (List (String × Int) × List (String × ℚ) × List (String × ℚ))
  deriving DecidableEq, Repr

/-- `GRADE_MAPPING = {'A': 0, ..., 'G': 6}` (src/app.py line 12). -/
def GRADE_MAPPING : List (String × Int) :=
  [("A", 0), ("B", 1), ("C", 2), ("D", 3), ("E", 4), ("F", 5), ("G", 6)]

/-- `LETTER_MAPPING = ['A', ..., 'G']` (src/app.py line 13). -/
def LETTER_MAPPING : List String :=
  ["A", "B", "C", "D", "E", "F", "G"]

/-! ## Grade codec (src/app.py lines 29-39) -/

/-- `option_id_to_grade`: `GRADE_MAPPING.get(option_id.upper(), 0)`. -/
def option_id_to_grade (option_id : String) : Int :=
  (dictLookup GRADE_MAPPING (pyUpper option_id)).getD 0

/-- `grade_to_letter`: `LETTER_MAPPING[int(round(grade))]` when
`0 <= grade <= 6`, else `'A'` (the guard makes the subscript in-range, so the
`getD` default is never reached). -/
def grade_to_letter (grade : ℚ) : String :=
  if 0 ≤ grade ∧ grade ≤ 6 then LETTER_MAPPING.getD (pyRound grade).toNat "A"
  else "A"

/-! ## Score aggregator (src/app.py lines 41-127) -/

/-- The arithmetic mean `sum(scores) / len(scores)` of an integer score list
(`float` division modelled exactly in `ℚ`). -/
def mean (scores : List Int) : ℚ :=
  ((scores.map (fun (n : Int) => (n : ℚ))).sum) / (scores.length : ℚ)

/-- The arithmetic mean of a rational score list. -/
def meanQ (scores : List ℚ) : ℚ :=
  scores.sum / (scores.length : ℚ)

/-- The inner loop of `_calculate_indicator_scores` (lines 75-82): scan the
page's collections for `collection_id`; at the first match with
`question_index < len(questions)` resolve the question, store its grade under
`question_id` (or the fallback id) and `break`.  A match whose index is not
below the length does NOT break (the scan continues), and a very negative
index makes the subscript raise `IndexError` (`none`). -/
def scanCollections (cols : List Collection) (collection_id : String)
    (question_index : Int) (grade : Int) (acc : List (String × Int)) :
    Option (List (String × Int)) :=
  match cols with
  | [] => some acc
  | col :: rest =>
    if col.collection_id = collection_id then
      if question_index < (col.questions.length : Int) then
        match pyListGet col.questions question_index with
        | none => none
        | some q =>
          some (dictInsert acc
            (q.question_id.getD (collection_id ++ "_" ++ toString question_index))
            grade)
      else scanCollections rest collection_id question_index grade acc
    else scanCollections rest collection_id question_index grade acc

/-- One iteration of the answers loop of `_calculate_indicator_scores`
(lines 65-82).  Note the source order: `int(parts[2])` runs BEFORE the
`page_key in self.question_files` test, so a non-numeric third segment raises
even for unknown pages. -/
def indicatorStep (question_files : Catalog) (acc : List (String × Int))
    (kv : String × AnswerData) : Option (List (String × Int)) :=
  let parts := splitParts kv.1
  if parts.length < 3 then some acc
  else
    match pyInt (parts.getD 2 "") with
    | none => none
    | some question_index =>
      match dictLookup question_files (parts.getD 0 "") with
      | none => some acc
      | some page =>
        scanCollections page.question_collections (parts.getD 1 "")
          question_index (option_id_to_grade kv.2.option_id) acc

/-- The answers loop, threading the accumulated indicator dict. -/
def foldAnswers (question_files : Catalog) :
    Answers → List (String × Int) → Option (List (String × Int))
  | [], acc => some acc
  | kv :: rest, acc =>
    match indicatorStep question_files acc kv with
    | none => none
    | some acc2 => foldAnswers question_files rest acc2

/-- `_calculate_indicator_scores` (lines 61-84); `none` = an exception
escaped the loop. -/
def calculate_indicator_scores (question_files : Catalog) (answers : Answers) :
    Option (List (String × Int)) :=
  foldAnswers question_files answers []

/-- The contribution of one question to its collection's score list
(lines 99-102): only a present, non-empty (truthy) `question_id` that occurs
in the indicator map contributes; fallback ids are never consulted here. -/
def questionScore (indicator_scores : List (String × Int)) (q : Question) :
    Option Int :=
  match q.question_id with
  | none => none
  | some qid => if qid = "" then none else dictLookup indicator_scores qid

/-- `scores`, the per-collection list of indicator scores (lines 98-102). -/
def colScores (indicator_scores : List (String × Int)) (col : Collection) :
    List Int :=
  col.questions.filterMap (questionScore indicator_scores)

/-- `_calculate_criterion_scores` (lines 86-107). -/
def calculate_criterion_scores (question_files : Catalog)
    (indicator_scores : List (String × Int)) : List (String × ℚ) :=
  question_files.foldl
    (fun cs pkv =>
      pkv.2.question_collections.foldl
        (fun cs col =>
          if colScores indicator_scores col = [] then cs
          else dictInsert cs col.collection_id (mean (colScores indicator_scores col)))
        cs)
    []

/-- `value_name` (line 114): the display title, `questionnaire_info.title`
with the page key as fallback -- the same expression the UI uses for page
titles (lines 410, 460). -/
def displayTitle (page_key : String) (page : Page) : String :=
  page.title.getD page_key

/-- The per-questionnaire list of criterion scores (lines 118-122). -/
def pageCritScores (criterion_scores : List (String × ℚ)) (page : Page) :
    List ℚ :=
  page.question_collections.filterMap
    (fun col => dictLookup criterion_scores col.collection_id)

/-- `_calculate_value_scores` (lines 109-127). -/
def calculate_value_scores (question_files : Catalog)
    (criterion_scores : List (String × ℚ)) : List (String × ℚ) :=
  question_files.foldl
    (fun vs pkv =>
      if pageCritScores criterion_scores pkv.2 = [] then vs
      else dictInsert vs (displayTitle pkv.1 pkv.2)
        (meanQ (pageCritScores criterion_scores pkv.2)))
    []

/-- `calculate_all_scores` (lines 41-59), with the processor state threaded:
the empty-answers early return skips the cache write; otherwise the three
passes run and `self._score_cache` is assigned.  The answers dict the method
received is part of the post-state (the method never writes into it). -/
def Processor.calculate_all_scores (p : Processor) (answers : Answers) :
    Option (ScoreData × Processor × Answers) :=
  if answers = [] then some (⟨[], [], []⟩, p, answers)
  else
    match calculate_indicator_scores p.question_files answers with
    | none => none
    | some ind =>
      let cs := calculate_criterion_scores p.question_files ind
      let vs := calculate_value_scores p.question_files cs
      some (⟨ind, cs, vs⟩, { p with score_cache := some (ind, cs, vs) }, answers)

/-! ## Progress tracker (src/app.py lines 129-161) -/

/-- One row of the progress dict. -/
structure ProgressEntry where
  total : Nat
  answered : Nat
  progress : ℚ
  deriving DecidableEq, Repr

/-- `len([k for k in answers.keys() if k.startswith(pfx)])`. -/
def countPrefix (answers : Answers) (pfx : String) : Nat :=
  (answers.filter (fun kv => pyStartsWith kv.1 pfx)).length

/-- One iteration of the page loop of `get_progress_data` (lines 134-153):
accumulate the per-page totals, insert the page's progress row, and add the
page's counts to the running grand totals. -/
def progressStep (answers : Answers)
    (st : List (String × ProgressEntry) × Nat × Nat) (pkv : String × Page) :
    List (String × ProgressEntry) × Nat × Nat :=
  let ta := pkv.2.question_collections.foldl
    (fun (ta : Nat × Nat) col =>
      (ta.1 + col.questions.length,
       ta.2 + countPrefix answers (pkv.1 ++ "_" ++ col.collection_id)))
    (0, 0)
  (dictInsert st.1 pkv.1
    ⟨ta.1, ta.2, if 0 < ta.1 then (ta.2 : ℚ) / (ta.1 : ℚ) else 0⟩,
   st.2.1 + ta.1, st.2.2 + ta.2)

/-- `get_progress_data` (lines 129-161), with processor and answers
post-states threaded (the method writes neither). -/
def Processor.get_progress_data (p : Processor) (answers : Answers) :
    List (String × ProgressEntry) × Processor × Answers :=
  let res := p.question_files.foldl (progressStep answers) ([], 0, 0)
  (dictInsert res.1 "overall"
    ⟨res.2.1, res.2.2, if 0 < res.2.1 then (res.2.2 : ℚ) / (res.2.1 : ℚ) else 0⟩,
   p, answers)

/-! ## Lemmas: dict primitives -/

section DictLemmas

variable {K V : Type} [DecidableEq K]

theorem dictLookup_dictInsert (d : List (K × V)) (k a : K) (v : V) :
    dictLookup (dictInsert d k v) a = if a = k then some v else dictLookup d a := by
  induction d with
  | nil =>
    by_cases h : a = k <;> by_cases h2 : k = a <;> simp_all [dictInsert, dictLookup]
  | cons kv rest ih =>
    by_cases hk : kv.1 = k <;> by_cases ha : kv.1 = a <;> by_cases hka : a = k <;>
      simp_all [dictInsert, dictLookup]

theorem dictLookup_mem {d : List (K × V)} {k : K} {v : V}
    (h : dictLookup d k = some v) : (k, v) ∈ d := by
  induction d with
  | nil => simp [dictLookup] at h
  | cons kv rest ih =>
    rcases kv with ⟨k1, v1⟩
    simp only [dictLookup] at h
    by_cases hk : k1 = k
    · subst hk
      rw [if_pos rfl] at h
      injection h with h2
      subst h2
      exact List.mem_cons_self _ _
    · rw [if_neg hk] at h
      exact List.mem_cons_of_mem _ (ih h)

theorem dictLookup_eq_none_iff {d : List (K × V)} {k : K} :
    dictLookup d k = none ↔ k ∉ d.map Prod.fst := by
  induction d with
  | nil => simp [dictLookup]
  | cons kv rest ih =>
    rcases kv with ⟨k1, v1⟩
    by_cases hk : k1 = k
    · subst hk; simp [dictLookup]
    · have hk2 : ¬k = k1 := fun hh => hk hh.symm
      rw [List.map_cons]
      simp only [dictLookup, if_neg hk, ih, List.mem_cons, not_or]
      exact ⟨fun h => ⟨hk2, h⟩, fun h => h.2⟩

theorem foldInsert_cons (d : List (K × V)) (kv : K × V) (l : List (K × V)) :
    foldInsert d (kv :: l) = foldInsert (dictInsert d kv.1 kv.2) l := rfl

theorem foldInsert_append (d : List (K × V)) (l₁ l₂ : List (K × V)) :
    foldInsert d (l₁ ++ l₂) = foldInsert (foldInsert d l₁) l₂ :=
  List.foldl_append _ _ _ _

theorem find?_eq_head?_filter {α : Type} (p : α → Bool) (l : List α) :
    l.find? p = (l.filter p).head? := by
  induction l with
  | nil => rfl
  | cons x xs ih =>
    by_cases h : p x
    · rw [List.find?_cons_of_pos _ h, List.filter_cons, if_pos h, List.head?_cons]
    · rw [List.find?_cons_of_neg _ h, List.filter_cons, if_neg h, ih]

theorem find?_reverse_eq_getLast?_filter {α : Type} (p : α → Bool) (l : List α) :
    l.reverse.find? p = (l.filter p).getLast? := by
  rw [find?_eq_head?_filter, List.filter_reverse, List.head?_reverse]

theorem dictLookup_foldInsert (l : List (K × V)) (d : List (K × V)) (a : K) :
    dictLookup (foldInsert d l) a =
      match l.reverse.find? (fun kv => decide (kv.1 = a)) with
      | some kv => some kv.2
      | none => dictLookup d a := by
  induction l generalizing d with
  | nil => simp [foldInsert]
  | cons kv rest ih =>
    rw [foldInsert_cons, ih]
    simp only [List.reverse_cons, List.find?_append]
    cases hf : rest.reverse.find? (fun kv => decide (kv.1 = a)) with
    | some x => simp [Option.or]
    | none =>
      simp only [Option.or, dictLookup_dictInsert, List.find?_singleton]
      by_cases hk : kv.1 = a
      · simp [hk]
      · have hk2 : ¬a = kv.1 := fun hh => hk hh.symm
        simp [hk, hk2]

theorem dictLookup_foldInsert_nil (l : List (K × V)) (a : K) :
    dictLookup (foldInsert [] l) a =
      ((l.filter (fun kv => decide (kv.1 = a))).getLast?).map Prod.snd := by
  rw [dictLookup_foldInsert, ← find?_reverse_eq_getLast?_filter]
  cases l.reverse.find? (fun kv => decide (kv.1 = a)) <;> simp [dictLookup]

theorem keyCount_nil (a : K) : keyCount ([] : List (K × V)) a = 0 := rfl

theorem keyCount_cons (kv : K × V) (d : List (K × V)) (a : K) :
    keyCount (kv :: d) a =
      (if kv.1 = a then 1 else 0) + keyCount d a := by
  by_cases h : kv.1 = a <;> simp [keyCount, List.filter_cons, h, Nat.add_comm]

theorem keyCount_dictInsert_of_ne {k a : K} (hka : k ≠ a) (d : List (K × V)) (v : V) :
    keyCount (dictInsert d k v) a = keyCount d a := by
  induction d with
  | nil => simp [dictInsert, keyCount_cons, keyCount_nil, hka]
  | cons kv rest ih =>
    simp only [dictInsert]
    by_cases hk : kv.1 = k
    · rw [if_pos hk, keyCount_cons, keyCount_cons, hk]
    · rw [if_neg hk, keyCount_cons, keyCount_cons, ih]

theorem keyCount_dictInsert_self {d : List (K × V)} {k : K}
    (h : keyCount d k ≤ 1) (v : V) : keyCount (dictInsert d k v) k = 1 := by
  induction d with
  | nil => simp [dictInsert, keyCount_cons, keyCount_nil]
  | cons kv rest ih =>
    simp only [dictInsert]
    by_cases hk : kv.1 = k
    · rw [if_pos hk]
      have h2 : keyCount rest k = 0 := by
        rw [keyCount_cons, hk, if_pos rfl] at h
        omega
      rw [keyCount_cons, if_pos rfl, h2]
    · rw [if_neg hk, keyCount_cons, if_neg hk, Nat.zero_add]
      rw [keyCount_cons, if_neg hk, Nat.zero_add] at h
      exact ih h

theorem keyCount_dictInsert_le {d : List (K × V)} {a : K}
    (h : ∀ b, keyCount d b ≤ 1) (k : K) (v : V) :
    keyCount (dictInsert d k v) a ≤ 1 := by
  by_cases hka : k = a
  · subst hka
    exact (keyCount_dictInsert_self (h k) v).le
  · rw [keyCount_dictInsert_of_ne hka]
    exact h a

theorem keyCount_foldInsert_le (l : List (K × V)) {d : List (K × V)}
    (h : ∀ b, keyCount d b ≤ 1) (a : K) :
    keyCount (foldInsert d l) a ≤ 1 := by
  induction l generalizing d with
  | nil => exact h a
  | cons kv rest ih =>
    rw [foldInsert_cons]
    exact ih (fun b => keyCount_dictInsert_le h kv.1 kv.2)

/-- All values of a dict satisfy `P`. -/
def allVals (d : List (K × V)) (P : V → Prop) : Prop := ∀ kv ∈ d, P kv.2

theorem allVals_dictInsert {d : List (K × V)} {P : V → Prop}
    (hd : allVals d P) {k : K} {v : V} (hv : P v) :
    allVals (dictInsert d k v) P := by
  induction d with
  | nil => intro kv hkv; simp [dictInsert] at hkv; simp [hkv, hv]
  | cons kv0 rest ih =>
    simp only [dictInsert]
    by_cases hk : kv0.1 = k
    · rw [if_pos hk]
      intro kv hkv
      rcases List.mem_cons.1 hkv with h | h
      · simp [h, hv]
      · exact hd kv (List.mem_cons_of_mem _ h)
    · rw [if_neg hk]
      intro kv hkv
      rcases List.mem_cons.1 hkv with h | h
      · exact hd kv (h ▸ List.mem_cons_self _ _)
      · exact ih (fun x hx => hd x (List.mem_cons_of_mem _ hx)) kv h

theorem allVals_foldInsert {l : List (K × V)} {d : List (K × V)} {P : V → Prop}
    (hd : allVals d P) (hl : ∀ kv ∈ l, P kv.2) :
    allVals (foldInsert d l) P := by
  induction l generalizing d with
  | nil => exact hd
  | cons kv rest ih =>
    rw [foldInsert_cons]
    exact ih (allVals_dictInsert hd (hl kv (List.mem_cons_self _ _)))
      (fun x hx => hl x (List.mem_cons_of_mem _ hx))

theorem filter_key_singleton_of_nodup {l : List (K × V)}
    (hnd : (l.map Prod.fst).Nodup) {k : K} {v : V} (hmem : (k, v) ∈ l) :
    l.filter (fun kv => decide (kv.1 = k)) = [(k, v)] := by
  induction l with
  | nil => simp at hmem
  | cons x xs ih =>
    simp only [List.map_cons, List.nodup_cons] at hnd
    rcases List.mem_cons.1 hmem with h | h
    · subst h
      have hnil : xs.filter (fun kv => decide (kv.1 = k)) = [] := by
        apply List.filter_eq_nil_iff.2
        intro kv hkv hk
        simp only [decide_eq_true_eq] at hk
        have hm : kv.1 ∈ xs.map Prod.fst := List.mem_map_of_mem Prod.fst hkv
        rw [hk] at hm
        exact hnd.1 hm
      simp [List.filter_cons, hnil]
    · have hx : x.1 ≠ k := by
        intro hh
        have hm : (k, v).1 ∈ xs.map Prod.fst := List.mem_map_of_mem Prod.fst h
        exact hnd.1 (by rw [hh]; exact hm)
      rw [List.filter_cons, if_neg (by simp [hx])]
      exact ih hnd.2 h

end DictLemmas

/-! ## Lemmas: the write sequences of the three passes -/

/-- The entry (if any) the criterion pass writes for one collection. -/
def critEntry (ind : List (String × Int)) (col : Collection) : Option (String × ℚ) :=
  if colScores ind col = [] then none
  else some (col.collection_id, mean (colScores ind col))

/-- All collections of the catalog, in iteration order of the criterion pass. -/
def flatCollections (qf : Catalog) : List Collection :=
  qf.flatMap (fun pkv => pkv.2.question_collections)

/-- The (key, value) pairs the criterion pass writes, in write order. -/
def critEntries (qf : Catalog) (ind : List (String × Int)) : List (String × ℚ) :=
  (flatCollections qf).filterMap (critEntry ind)

theorem critFold_eq (ind : List (String × Int)) (cols : List Collection)
    (cs : List (String × ℚ)) :
    cols.foldl
      (fun cs col =>
        if colScores ind col = [] then cs
        else dictInsert cs col.collection_id (mean (colScores ind col)))
      cs
    = foldInsert cs (cols.filterMap (critEntry ind)) := by
  induction cols generalizing cs with
  | nil => rfl
  | cons col rest ih =>
    simp only [List.foldl_cons, List.filterMap_cons]
    by_cases h : colScores ind col = []
    · rw [if_pos h]
      have he : critEntry ind col = none := by simp [critEntry, h]
      rw [he, ih]
    · rw [if_neg h]
      have he : critEntry ind col = some (col.collection_id, mean (colScores ind col)) := by
        simp [critEntry, h]
      rw [he, ih, foldInsert_cons]

theorem calculate_criterion_scores_eq (qf : Catalog) (ind : List (String × Int)) :
    calculate_criterion_scores qf ind = foldInsert [] (critEntries qf ind) := by
  have key : ∀ (qf : Catalog) (cs0 : List (String × ℚ)),
      qf.foldl
        (fun cs pkv =>
          pkv.2.question_collections.foldl
            (fun cs col =>
              if colScores ind col = [] then cs
              else dictInsert cs col.collection_id (mean (colScores ind col)))
            cs)
        cs0
      = foldInsert cs0 (critEntries qf ind) := by
    intro qf
    induction qf with
    | nil => intro cs0; rfl
    | cons pkv rest ih =>
      intro cs0
      rw [List.foldl_cons, critFold_eq, ih]
      show foldInsert (foldInsert cs0 (pkv.2.question_collections.filterMap (critEntry ind)))
        (critEntries rest ind) = _
      rw [← foldInsert_append]
      congr 1
      simp [critEntries, flatCollections, List.flatMap_cons, List.filterMap_append]
  exact key qf []

/-- The claim-side reading of `total` for one page: the sum of the question
counts over the page's collections. -/
def pageTotal (page : Page) : Nat :=
  (page.question_collections.map (fun col => col.questions.length)).sum

/-- The claim-side reading of `answered` for one page: per collection, the
number of answer keys starting with `"<page>_<collection_id>"`, summed. -/
def pageAnswered (answers : Answers) (pk : String) (page : Page) : Nat :=
  (page.question_collections.map
    (fun col => countPrefix answers (pk ++ "_" ++ col.collection_id))).sum

/-- The progress row of one page, per the claim. -/
def pageEntry (answers : Answers) (pk : String) (page : Page) : ProgressEntry :=
  ⟨pageTotal page, pageAnswered answers pk page,
   if 0 < pageTotal page then
     (pageAnswered answers pk page : ℚ) / (pageTotal page : ℚ)
   else 0⟩

/-- The per-page rows `get_progress_data` writes, in page order. -/
def progressEntries (qf : Catalog) (answers : Answers) :
    List (String × ProgressEntry) :=
  qf.map (fun pkv => (pkv.1, pageEntry answers pkv.1 pkv.2))

/-- The raw sum of `total` over all questionnaires. -/
def grandTotal (qf : Catalog) : Nat :=
  (qf.map (fun pkv => pageTotal pkv.2)).sum

/-- The raw sum of `answered` over all questionnaires. -/
def grandAnswered (qf : Catalog) (answers : Answers) : Nat :=
  (qf.map (fun pkv => pageAnswered answers pkv.1 pkv.2)).sum

theorem pairFold_eq (answers : Answers) (pk : String) (cols : List Collection)
    (t0 a0 : Nat) :
    cols.foldl
      (fun (ta : Nat × Nat) col =>
        (ta.1 + col.questions.length,
         ta.2 + countPrefix answers (pk ++ "_" ++ col.collection_id)))
      (t0, a0)
    = (t0 + (cols.map (fun col => col.questions.length)).sum,
       a0 + (cols.map
         (fun col => countPrefix answers (pk ++ "_" ++ col.collection_id))).sum) := by
  induction cols generalizing t0 a0 with
  | nil => simp
  | cons col rest ih =>
    rw [List.foldl_cons, ih]
    simp [Nat.add_assoc]

theorem progressStep_eq (answers : Answers)
    (st : List (String × ProgressEntry) × Nat × Nat) (pkv : String × Page) :
    progressStep answers st pkv =
      (dictInsert st.1 pkv.1 (pageEntry answers pkv.1 pkv.2),
       st.2.1 + pageTotal pkv.2, st.2.2 + pageAnswered answers pkv.1 pkv.2) := by
  unfold progressStep
  rw [pairFold_eq]
  simp [pageEntry, pageTotal, pageAnswered]

theorem progressFold_eq (answers : Answers) (qf : Catalog)
    (d0 : List (String × ProgressEntry)) (t0 a0 : Nat) :
    qf.foldl (progressStep answers) (d0, t0, a0)
    = (foldInsert d0 (progressEntries qf answers),
       t0 + grandTotal qf, a0 + grandAnswered qf answers) := by
  induction qf generalizing d0 t0 a0 with
  | nil => simp [progressEntries, grandTotal, grandAnswered, foldInsert]
  | cons pkv rest ih =>
    rw [List.foldl_cons, progressStep_eq, ih]
    simp only [progressEntries, List.map_cons, grandTotal, grandAnswered,
      List.sum_cons, foldInsert_cons]
    simp [Nat.add_assoc]

/-! ## Lemmas: means and bounds -/

theorem listSum_nonneg {l : List ℚ} (h : ∀ x ∈ l, 0 ≤ x) : 0 ≤ l.sum := by
  induction l with
  | nil => simp
  | cons x xs ih =>
    rw [List.sum_cons]
    exact add_nonneg (h x (List.mem_cons_self _ _))
      (ih (fun y hy => h y (List.mem_cons_of_mem _ hy)))

theorem listSum_le_length_mul {l : List ℚ} {b : ℚ}
    (h : ∀ x ∈ l, x ≤ b) : l.sum ≤ (l.length : ℚ) * b := by
  induction l with
  | nil => simp
  | cons x xs ih =>
    rw [List.sum_cons, List.length_cons]
    push_cast
    have h1 : x ≤ b := h x (List.mem_cons_self _ _)
    have h2 : xs.sum ≤ (xs.length : ℚ) * b :=
      ih (fun y hy => h y (List.mem_cons_of_mem _ hy))
    nlinarith

theorem meanQ_bounds {l : List ℚ} (hne : l ≠ [])
    (h : ∀ x ∈ l, 0 ≤ x ∧ x ≤ 6) : 0 ≤ meanQ l ∧ meanQ l ≤ 6 := by
  have hlen : 0 < (l.length : ℚ) := by
    have := List.length_pos.2 hne
    exact_mod_cast this
  constructor
  · exact div_nonneg (listSum_nonneg (fun x hx => (h x hx).1)) hlen.le
  · rw [meanQ, div_le_iff₀ hlen]
    calc l.sum ≤ (l.length : ℚ) * 6 := listSum_le_length_mul (fun x hx => (h x hx).2)
    _ = 6 * (l.length : ℚ) := mul_comm _ _

theorem mean_eq_meanQ (l : List Int) :
    mean l = meanQ (l.map (fun (n : Int) => (n : ℚ))) := by
  rw [mean, meanQ, List.length_map]

theorem mean_bounds {l : List Int} (hne : l ≠ [])
    (h : ∀ x ∈ l, 0 ≤ x ∧ x ≤ 6) : 0 ≤ mean l ∧ mean l ≤ 6 := by
  rw [mean_eq_meanQ]
  apply meanQ_bounds
  · cases l with
    | nil => exact absurd rfl hne
    | cons x xs => simp
  · intro x hx
    rcases List.mem_map.1 hx with ⟨n, hn, rfl⟩
    rcases h n hn with ⟨h1, h2⟩
    exact ⟨by exact_mod_cast h1, by exact_mod_cast h2⟩

/-! ## Lemmas: rounding and the grade codec -/

/-- `pyRound` is the round-half-to-even integer: it agrees with any `n` that
is strictly nearest to `q`, or at distance exactly `1/2` and even. -/
theorem pyRound_eq {q : ℚ} {n : ℤ}
    (h : |q - n| < 1/2 ∨ (|q - n| = 1/2 ∧ Even n)) : pyRound q = n := by
  have hf1 : (⌊q⌋ : ℚ) ≤ q := Int.floor_le q
  have hf2 : q < ⌊q⌋ + 1 := Int.lt_floor_add_one q
  unfold pyRound
  by_cases h1 : q - ⌊q⌋ < 1/2
  · rw [if_pos h1]
    rcases h with hlt | ⟨heq, hev⟩
    · rw [abs_lt] at hlt
      have hn1 : (n : ℚ) < (⌊q⌋ : ℚ) + 1 := by linarith
      have hn2 : (⌊q⌋ : ℚ) - 1 < (n : ℚ) := by linarith
      have hz1 : n < ⌊q⌋ + 1 := by exact_mod_cast hn1
      have hz2 : ⌊q⌋ - 1 < n := by exact_mod_cast hn2
      omega
    · exfalso
      rcases (abs_eq (by norm_num : (0:ℚ) ≤ 1/2)).1 heq with he | he
      · have hn1 : (n : ℚ) < (⌊q⌋ : ℚ) := by linarith
        have hn2 : (⌊q⌋ : ℚ) - 1 < (n : ℚ) := by linarith
        have hz1 : n < ⌊q⌋ := by exact_mod_cast hn1
        have hz2 : ⌊q⌋ - 1 < n := by exact_mod_cast hn2
        omega
      · have hn1 : (⌊q⌋ : ℚ) < (n : ℚ) := by linarith
        have hn2 : (n : ℚ) < (⌊q⌋ : ℚ) + 1 := by linarith
        have hz1 : ⌊q⌋ < n := by exact_mod_cast hn1
        have hz2 : n < ⌊q⌋ + 1 := by exact_mod_cast hn2
        omega
  · rw [if_neg h1]
    by_cases h2 : 1/2 < q - ⌊q⌋
    · rw [if_pos h2]
      rcases h with hlt | ⟨heq, hev⟩
      · rw [abs_lt] at hlt
        have hn1 : (⌊q⌋ : ℚ) < (n : ℚ) := by linarith
        have hn2 : (n : ℚ) < (⌊q⌋ : ℚ) + 2 := by linarith
        have hz1 : ⌊q⌋ < n := by exact_mod_cast hn1
        have hz2 : n < ⌊q⌋ + 2 := by exact_mod_cast hn2
        omega
      · exfalso
        rcases (abs_eq (by norm_num : (0:ℚ) ≤ 1/2)).1 heq with he | he
        · have hn1 : (⌊q⌋ : ℚ) < (n : ℚ) := by linarith
          have hn2 : (n : ℚ) < (⌊q⌋ : ℚ) + 1 := by linarith
          have hz1 : ⌊q⌋ < n := by exact_mod_cast hn1
          have hz2 : n < ⌊q⌋ + 1 := by exact_mod_cast hn2
          omega
        · have hn1 : (⌊q⌋ : ℚ) + 1 < (n : ℚ) := by linarith
          have hn2 : (n : ℚ) < (⌊q⌋ : ℚ) + 2 := by linarith
          have hz1 : ⌊q⌋ + 1 < n := by exact_mod_cast hn1
          have hz2 : n < ⌊q⌋ + 2 := by exact_mod_cast hn2
          omega
    · rw [if_neg h2]
      have hr : q - ⌊q⌋ = 1/2 := le_antisymm (not_lt.1 h2) (not_lt.1 h1)
      rcases h with hlt | ⟨heq, hev⟩
      · exfalso
        rw [abs_lt] at hlt
        have hn1 : (⌊q⌋ : ℚ) < (n : ℚ) := by linarith
        have hn2 : (n : ℚ) < (⌊q⌋ : ℚ) + 1 := by linarith
        have hz1 : ⌊q⌋ < n := by exact_mod_cast hn1
        have hz2 : n < ⌊q⌋ + 1 := by exact_mod_cast hn2
        omega
      · rcases (abs_eq (by norm_num : (0:ℚ) ≤ 1/2)).1 heq with he | he
        · have hn : (n : ℚ) = (⌊q⌋ : ℚ) := by linarith
          have hz : n = ⌊q⌋ := by exact_mod_cast hn
          subst hz
          rw [if_pos hev]
        · have hn : (n : ℚ) = (⌊q⌋ : ℚ) + 1 := by linarith
          have hz : n = ⌊q⌋ + 1 := by exact_mod_cast hn
          subst hz
          rw [if_neg (by
            intro hf
            exact (Int.even_add_one.1 hev) hf)]

theorem option_id_to_grade_bounds (s : String) :
    0 ≤ option_id_to_grade s ∧ option_id_to_grade s ≤ 6 := by
  rw [option_id_to_grade]
  cases hl : dictLookup GRADE_MAPPING (pyUpper s) with
  | none => simp
  | some v =>
    have hm := dictLookup_mem hl
    simp only [GRADE_MAPPING, List.mem_cons, List.not_mem_nil, or_false,
      Prod.mk.injEq] at hm
    rcases hm with ⟨-, rfl⟩ | ⟨-, rfl⟩ | ⟨-, rfl⟩ | ⟨-, rfl⟩ | ⟨-, rfl⟩ |
      ⟨-, rfl⟩ | ⟨-, rfl⟩ <;> simp

/-! ## Lemmas: the indicator pass -/

theorem pyListGet_of_nonneg_lt {α : Type} (xs : List α) (i : Int)
    (h0 : 0 ≤ i) (hlt : i < (xs.length : Int)) :
    ∃ x, pyListGet xs i = some x := by
  rw [pyListGet, if_pos h0]
  have hn : i.toNat < xs.length := by omega
  exact ⟨xs.get ⟨i.toNat, hn⟩, List.get?_eq_get hn⟩

theorem scanCollections_isSome (cols : List Collection) (cid : String)
    (qidx : Int) (g : Int) (acc : List (String × Int)) (h0 : 0 ≤ qidx) :
    ∃ acc2, scanCollections cols cid qidx g acc = some acc2 := by
  induction cols with
  | nil => exact ⟨acc, rfl⟩
  | cons col rest ih =>
    by_cases hc : col.collection_id = cid
    · by_cases hq : qidx < (col.questions.length : Int)
      · obtain ⟨x, hx⟩ := pyListGet_of_nonneg_lt col.questions qidx h0 hq
        refine ⟨dictInsert acc
          (x.question_id.getD (cid ++ "_" ++ toString qidx)) g, ?_⟩
        simp [scanCollections, hc, hq, hx]
      · simpa [scanCollections, hc, hq] using ih
    · simpa [scanCollections, hc] using ih

theorem scanCollections_skip (cols : List Collection) (cid : String)
    (qidx : Int) (g : Int) (acc : List (String × Int))
    (h : ∀ col ∈ cols, col.collection_id = cid →
      (col.questions.length : Int) ≤ qidx) :
    scanCollections cols cid qidx g acc = some acc := by
  induction cols with
  | nil => rfl
  | cons col rest ih =>
    by_cases hc : col.collection_id = cid
    · have hq : ¬qidx < (col.questions.length : Int) := by
        have := h col (List.mem_cons_self _ _) hc
        omega
      simp only [scanCollections, if_pos hc, if_neg hq]
      exact ih (fun c hc2 => h c (List.mem_cons_of_mem _ hc2))
    · simp only [scanCollections, if_neg hc]
      exact ih (fun c hc2 => h c (List.mem_cons_of_mem _ hc2))

theorem scanCollections_result {cols : List Collection} {cid : String}
    {qidx : Int} {g : Int} {acc acc2 : List (String × Int)}
    (h : scanCollections cols cid qidx g acc = some acc2) :
    acc2 = acc ∨ ∃ qid, acc2 = dictInsert acc qid g := by
  induction cols with
  | nil =>
    simp only [scanCollections] at h
    exact Or.inl (Option.some.inj h).symm
  | cons col rest ih =>
    by_cases hc : col.collection_id = cid
    · by_cases hq : qidx < (col.questions.length : Int)
      · simp only [scanCollections, if_pos hc, if_pos hq] at h
        cases hx : pyListGet col.questions qidx with
        | none => rw [hx] at h; cases h
        | some q =>
          rw [hx] at h
          exact Or.inr ⟨_, (Option.some.inj h).symm⟩
      · simp only [scanCollections, if_pos hc, if_neg hq] at h
        exact ih h
    · simp only [scanCollections, if_neg hc] at h
      exact ih h

theorem indicatorStep_allVals {qf : Catalog} {acc acc2 : List (String × Int)}
    {kv : String × AnswerData} {P : Int → Prop}
    (h : indicatorStep qf acc kv = some acc2)
    (hacc : allVals acc P) (hP : ∀ s, P (option_id_to_grade s)) :
    allVals acc2 P := by
  unfold indicatorStep at h
  by_cases hlen : (splitParts kv.1).length < 3
  · rw [if_pos hlen] at h
    exact (Option.some.inj h) ▸ hacc
  · rw [if_neg hlen] at h
    cases hi : pyInt ((splitParts kv.1).getD 2 "") with
    | none => rw [hi] at h; cases h
    | some qidx =>
      rw [hi] at h
      cases hpage : dictLookup qf ((splitParts kv.1).getD 0 "") with
      | none =>
        rw [hpage] at h
        exact (Option.some.inj h) ▸ hacc
      | some page =>
        rw [hpage] at h
        rcases scanCollections_result h with rfl | ⟨qid, rfl⟩
        · exact hacc
        · exact allVals_dictInsert hacc (hP _)

theorem foldAnswers_allVals {qf : Catalog} {answers : Answers}
    {acc ind : List (String × Int)} {P : Int → Prop}
    (h : foldAnswers qf answers acc = some ind)
    (hacc : allVals acc P) (hP : ∀ s, P (option_id_to_grade s)) :
    allVals ind P := by
  induction answers generalizing acc with
  | nil =>
    simp only [foldAnswers] at h
    exact (Option.some.inj h) ▸ hacc
  | cons kv rest ih =>
    simp only [foldAnswers] at h
    cases hs : indicatorStep qf acc kv with
    | none => rw [hs] at h; cases h
    | some acc2 =>
      rw [hs] at h
      exact ih h (indicatorStep_allVals hs hacc hP)

theorem foldAnswers_total (qf : Catalog) (answers : Answers)
    (h : ∀ kv ∈ answers, 3 ≤ (splitParts kv.1).length →
      ∃ n : Nat, pyInt ((splitParts kv.1).getD 2 "") = some (n : Int)) :
    ∀ acc, ∃ ind, foldAnswers qf answers acc = some ind := by
  induction answers with
  | nil => exact fun acc => ⟨acc, rfl⟩
  | cons kv rest ih =>
    intro acc
    have hstep : ∃ acc2, indicatorStep qf acc kv = some acc2 := by
      unfold indicatorStep
      by_cases hlen : (splitParts kv.1).length < 3
      · rw [if_pos hlen]; exact ⟨acc, rfl⟩
      · rw [if_neg hlen]
        obtain ⟨n, hn⟩ := h kv (List.mem_cons_self _ _) (by omega)
        rw [hn]
        cases hpage : dictLookup qf ((splitParts kv.1).getD 0 "") with
        | none => exact ⟨acc, rfl⟩
        | some page =>
          exact scanCollections_isSome _ _ _ _ _ (by positivity)
    obtain ⟨acc2, h2⟩ := hstep
    obtain ⟨ind, hind⟩ := ih (fun x hx => h x (List.mem_cons_of_mem _ hx)) acc2
    exact ⟨ind, by simp only [foldAnswers, h2, hind]⟩

/-! ## Lemmas: keys of the write sequences -/

theorem filter_filterMap_key {α K V : Type} [DecidableEq K]
    (l : List α) (g : α → Option (K × V)) (key : α → K)
    (hkey : ∀ x kv, g x = some kv → kv.1 = key x) (c : K) :
    (l.filterMap g).filter (fun kv => decide (kv.1 = c))
      = (l.filter (fun x => decide (key x = c))).filterMap g := by
  induction l with
  | nil => rfl
  | cons x xs ih =>
    cases hg : g x with
    | none =>
      by_cases hk : key x = c <;>
        simp [List.filterMap_cons, List.filter_cons, hg, hk, ih]
    | some kv =>
      have hkc := hkey x kv hg
      by_cases hk : key x = c
      · have hkv : kv.1 = c := hkc.trans hk
        simp [List.filterMap_cons, List.filter_cons, hg, hk, hkv, ih]
      · have hkv : ¬kv.1 = c := fun hh => hk (hkc ▸ hh)
        simp [List.filterMap_cons, List.filter_cons, hg, hk, hkv, ih]

theorem filterMap_critEntry_eq (ind : List (String × Int)) (l : List Collection) :
    l.filterMap (critEntry ind)
      = (l.filter (fun col => decide (colScores ind col ≠ []))).map
          (fun col => (col.collection_id, mean (colScores ind col))) := by
  induction l with
  | nil => rfl
  | cons col rest ih =>
    by_cases h : colScores ind col = [] <;>
      simp [List.filterMap_cons, List.filter_cons, critEntry, h, ih]

/-- The entry (if any) the value pass writes for one questionnaire page. -/
def valEntry (cs : List (String × ℚ)) (pkv : String × Page) : Option (String × ℚ) :=
  if pageCritScores cs pkv.2 = [] then none
  else some (displayTitle pkv.1 pkv.2, meanQ (pageCritScores cs pkv.2))

/-- The (key, value) pairs the value pass writes, in write order. -/
def valEntries (qf : Catalog) (cs : List (String × ℚ)) : List (String × ℚ) :=
  qf.filterMap (valEntry cs)

theorem calculate_value_scores_eq (qf : Catalog) (cs : List (String × ℚ)) :
    calculate_value_scores qf cs = foldInsert [] (valEntries qf cs) := by
  have key : ∀ (qf : Catalog) (vs0 : List (String × ℚ)),
      qf.foldl
        (fun vs pkv =>
          if pageCritScores cs pkv.2 = [] then vs
          else dictInsert vs (displayTitle pkv.1 pkv.2)
            (meanQ (pageCritScores cs pkv.2)))
        vs0
      = foldInsert vs0 (valEntries qf cs) := by
    intro qf
    induction qf with
    | nil => intro vs0; rfl
    | cons pkv rest ih =>
      intro vs0
      rw [List.foldl_cons]
      simp only [valEntries, List.filterMap_cons]
      by_cases h : pageCritScores cs pkv.2 = []
      · rw [if_pos h]
        have he : valEntry cs pkv = none := by simp [valEntry, h]
        rw [he]
        exact ih _
      · rw [if_neg h]
        have he : valEntry cs pkv =
            some (displayTitle pkv.1 pkv.2, meanQ (pageCritScores cs pkv.2)) := by
          simp [valEntry, h]
        rw [he, foldInsert_cons]
        exact ih _
  exact key qf []

/-! ## Lemmas: the pipeline as a whole -/

/-- Case analysis of `calculate_all_scores`: either the empty-answers early
return fired, or the three passes ran and the cache was written. -/
theorem calculate_all_scores_spec {p : Processor} {answers : Answers}
    {r : ScoreData × Processor × Answers}
    (hr : p.calculate_all_scores answers = some r) :
    (answers = [] ∧ r.1 = ⟨[], [], []⟩ ∧ r.2.1 = p ∧ r.2.2 = answers) ∨
    (answers ≠ [] ∧
      calculate_indicator_scores p.question_files answers
        = some r.1.indicator_scores ∧
      r.1.criterion_scores
        = calculate_criterion_scores p.question_files r.1.indicator_scores ∧
      r.1.value_scores
        = calculate_value_scores p.question_files r.1.criterion_scores ∧
      r.2.1 = Processor.mk p.question_files
        (some (r.1.indicator_scores, r.1.criterion_scores, r.1.value_scores)) ∧
      r.2.2 = answers) := by
  unfold Processor.calculate_all_scores at hr
  by_cases ha : answers = []
  · rw [if_pos ha] at hr
    obtain rfl := Option.some.inj hr
    exact Or.inl ⟨ha, rfl, rfl, rfl⟩
  · rw [if_neg ha] at hr
    cases hind : calculate_indicator_scores p.question_files answers with
    | none => rw [hind] at hr; cases hr
    | some ind =>
      rw [hind] at hr
      obtain rfl := Option.some.inj hr
      exact Or.inr ⟨ha, rfl, rfl, rfl, rfl, rfl⟩

theorem questionScore_nil (q : Question) :
    questionScore [] q = none := by
  unfold questionScore
  cases q.question_id with
  | none => rfl
  | some qid =>
    by_cases h : qid = "" <;> simp [h, dictLookup]

theorem colScores_nil (col : Collection) : colScores [] col = [] := by
  unfold colScores
  exact List.filterMap_eq_nil_iff.2 (fun q _ => questionScore_nil q)

theorem colScores_ne_nil_iff (ind : List (String × Int)) (col : Collection) :
    colScores ind col ≠ [] ↔
      ∃ q ∈ col.questions, (questionScore ind q).isSome := by
  rw [colScores, Ne, List.filterMap_eq_nil_iff]
  push_neg
  constructor
  · rintro ⟨q, hq, hne⟩
    exact ⟨q, hq, Option.ne_none_iff_isSome.1 hne⟩
  · rintro ⟨q, hq, hs⟩
    exact ⟨q, hq, Option.ne_none_iff_isSome.2 hs⟩

theorem calculate_value_scores_of_nil (qf : Catalog) :
    calculate_value_scores qf [] = [] := by
  rw [calculate_value_scores_eq]
  have : valEntries qf [] = [] := by
    apply List.filterMap_eq_nil_iff.2
    intro pkv _
    unfold valEntry
    rw [if_pos]
    unfold pageCritScores
    exact List.filterMap_eq_nil_iff.2 (fun col _ => rfl)
  rw [this]
  rfl

theorem critEntry_key {ind : List (String × Int)} {x : Collection}
    {kv : String × ℚ} (h : critEntry ind x = some kv) :
    kv.1 = x.collection_id := by
  unfold critEntry at h
  by_cases hx : colScores ind x = []
  · rw [if_pos hx] at h; cases h
  · rw [if_neg hx] at h
    obtain rfl := Option.some.inj h
    rfl

theorem valEntry_key {cs : List (String × ℚ)} {pkv : String × Page}
    {kv : String × ℚ} (h : valEntry cs pkv = some kv) :
    kv.1 = displayTitle pkv.1 pkv.2 := by
  unfold valEntry at h
  by_cases hx : pageCritScores cs pkv.2 = []
  · rw [if_pos hx] at h; cases h
  · rw [if_neg hx] at h
    obtain rfl := Option.some.inj h
    rfl

/-! ## Concrete inputs used by witnesses and counterexamples -/

/-- The catalog of the spec's end-to-end example (§8): one questionnaire
`"Q1"` titled `"Quality"` with one collection `"C1"` of two questions
`"I1"`, `"I2"`. -/
def exCol : Collection :=
  { collection_id := "C1",
    questions := [{ question_id := some "I1" }, { question_id := some "I2" }] }

def exPage : Page :=
  { title := some "Quality", question_collections := [exCol] }

def exCatalog : Catalog := [("Q1", exPage)]

def exProcessor : Processor := { question_files := exCatalog, score_cache := none }

def exAnswers : Answers := [("Q1_C1_0", ⟨"B"⟩), ("Q1_C1_1", ⟨"D"⟩)]

/-- The `ScoreData` the example run produces. -/
def exScore : ScoreData :=
  ⟨[("I1", 1), ("I2", 3)], [("C1", 2)], [("Quality", 2)]⟩

/-- The processor state after the example run (cache written). -/
def exProcessorAfter : Processor :=
  { question_files := exCatalog,
    score_cache := some (exScore.indicator_scores, exScore.criterion_scores,
      exScore.value_scores) }

theorem exRun : exProcessor.calculate_all_scores exAnswers
    = some (exScore, exProcessorAfter, exAnswers) := by
  simp [Processor.calculate_all_scores, calculate_indicator_scores,
    foldAnswers, indicatorStep, scanCollections, splitParts, splitCharList,
    pyInt, digitsVal, pyListGet, dictInsert, dictLookup, pyUpper,
    option_id_to_grade, GRADE_MAPPING, calculate_criterion_scores, colScores,
    questionScore, mean, calculate_value_scores, pageCritScores, meanQ,
    displayTitle, exProcessor, exCatalog, exPage, exCol, exAnswers, exScore,
    exProcessorAfter]
  norm_num

/-- A two-questionnaire catalog in which both pages carry a collection with
the SAME id `"C1"` (conformant per §3: ids are only unique within one
questionnaire). -/
def colCol1 : Collection :=
  { collection_id := "C1", questions := [{ question_id := some "I1" }] }

def colPage1 : Page := { title := some "T1", question_collections := [colCol1] }

def colCol2 : Collection :=
  { collection_id := "C1", questions := [{ question_id := some "I2" }] }

def colPage2 : Page := { title := some "T2", question_collections := [colCol2] }

def colCatalog : Catalog := [("P1", colPage1), ("P2", colPage2)]

def colProcessor : Processor := { question_files := colCatalog, score_cache := none }

def colAnswers : Answers := [("P1_C1_0", ⟨"B"⟩), ("P2_C1_0", ⟨"D"⟩)]

/-- Both pages' collections score (means 1 and 3); the single shared entry
`"C1"` holds the mean of the LAST page, and both value scores consume it. -/
def colScore : ScoreData :=
  ⟨[("I1", 1), ("I2", 3)], [("C1", 3)], [("T1", 3), ("T2", 3)]⟩

def colProcessorAfter : Processor :=
  { question_files := colCatalog,
    score_cache := some (colScore.indicator_scores, colScore.criterion_scores,
      colScore.value_scores) }

theorem colRun : colProcessor.calculate_all_scores colAnswers
    = some (colScore, colProcessorAfter, colAnswers) := by
  simp [Processor.calculate_all_scores, calculate_indicator_scores,
    foldAnswers, indicatorStep, scanCollections, splitParts, splitCharList,
    pyInt, digitsVal, pyListGet, dictInsert, dictLookup, pyUpper,
    option_id_to_grade, GRADE_MAPPING, calculate_criterion_scores, colScores,
    questionScore, mean, calculate_value_scores, pageCritScores, meanQ,
    displayTitle, colProcessor, colCatalog, colPage1, colCol1, colPage2,
    colCol2, colAnswers, colScore, colProcessorAfter]

/-- A catalog whose single question has NO `question_id` (the indicator pass
then keys its grade under the fallback id `"c_0"`). -/
def fbCatalog : Catalog :=
  [("p", { title := none,
           question_collections :=
             [{ collection_id := "c", questions := [{ question_id := none }] }] })]

def fbProcessor : Processor := { question_files := fbCatalog, score_cache := none }

def fbAnswers : Answers := [("p_c_0", ⟨"B"⟩)]

/-- The fallback-id grade lands in the indicator map, but the criterion pass
never consults fallback ids, so the criterion map stays empty. -/
def fbScore : ScoreData := ⟨[("c_0", 1)], [], []⟩

def fbProcessorAfter : Processor :=
  { question_files := fbCatalog, score_cache := some (fbScore.indicator_scores,
      fbScore.criterion_scores, fbScore.value_scores) }

theorem fbRun : fbProcessor.calculate_all_scores fbAnswers
    = some (fbScore, fbProcessorAfter, fbAnswers) := by
  simp [Processor.calculate_all_scores, calculate_indicator_scores,
    foldAnswers, indicatorStep, scanCollections, splitParts, splitCharList,
    pyInt, digitsVal, pyListGet, dictInsert, dictLookup, pyUpper,
    option_id_to_grade, GRADE_MAPPING, calculate_criterion_scores, colScores,
    questionScore, mean, calculate_value_scores, pageCritScores, meanQ,
    displayTitle, fbProcessor, fbCatalog, fbAnswers, fbScore, fbProcessorAfter]
  decide

/-! ## The claims -/

/-- **C6** (confirmed): for every string `s`, `option_id_to_grade s` is the
table value of the upper-cased form of `s` under the fixed mapping A→0 … G→6,
and 0 for every string whose upper-cased form is not in the table; it is a
total function, and `option_id_to_grade` sends "a" and "A" to 0, "G" to 6 and
"Z" to 0. -/
theorem claim_C6 :
    (∀ s : String,
      (∀ v : Int, (pyUpper s, v) ∈ GRADE_MAPPING → option_id_to_grade s = v) ∧
      (pyUpper s ∉ GRADE_MAPPING.map Prod.fst → option_id_to_grade s = 0)) ∧
    option_id_to_grade "a" = 0 ∧ option_id_to_grade "A" = 0 ∧
    option_id_to_grade "G" = 6 ∧ option_id_to_grade "Z" = 0 := by
  refine ⟨fun s => ⟨?_, ?_⟩, by decide, by decide, by decide, by decide⟩
  · intro v hv
    rw [option_id_to_grade]
    simp only [GRADE_MAPPING, List.mem_cons, List.not_mem_nil, or_false,
      Prod.mk.injEq] at hv
    rcases hv with ⟨h1, rfl⟩ | ⟨h1, rfl⟩ | ⟨h1, rfl⟩ | ⟨h1, rfl⟩ | ⟨h1, rfl⟩ |
      ⟨h1, rfl⟩ | ⟨h1, rfl⟩ <;> rw [h1] <;> decide
  · intro hnot
    rw [option_id_to_grade, dictLookup_eq_none_iff.2 hnot]
    rfl

/-- Witness for C6: the generic clauses applied at "B" (in the table, value 1)
and at "Z" (not in the table, default 0). -/
theorem claim_C6_witness :
    ((pyUpper "B", (1 : Int)) ∈ GRADE_MAPPING ∧ option_id_to_grade "B" = 1) ∧
    (pyUpper "Z" ∉ GRADE_MAPPING.map Prod.fst ∧ option_id_to_grade "Z" = 0) :=
  ⟨⟨by decide, (claim_C6.1 "B").1 1 (by decide)⟩,
   ⟨by decide, (claim_C6.1 "Z").2 (by decide)⟩⟩

/-- **C5** (amended): on `0 ≤ g ≤ 6`, `grade_to_letter g` is the letter at
position round-half-to-even(g) of the fixed alphabet A..G (CPython `round`
rounds ties to even, so 3.5 rounds to 4 and the letter is "E", not "D");
outside `[0, 6]` the result is "A".  In particular `grade_to_letter 0 = "A"`,
`grade_to_letter 6 = "G"`, `grade_to_letter 3.5 = "E"`. -/
theorem claim_C5 :
    (∀ (g : ℚ) (n : ℤ), 0 ≤ g → g ≤ 6 →
      (|g - n| < 1/2 ∨ (|g - n| = 1/2 ∧ Even n)) →
      LETTER_MAPPING.get? n.toNat = some (grade_to_letter g)) ∧
    (∀ g : ℚ, g < 0 ∨ 6 < g → grade_to_letter g = "A") ∧
    grade_to_letter 0 = "A" ∧ grade_to_letter 6 = "G" ∧
    grade_to_letter (7/2) = "E" := by
  have key : ∀ (g : ℚ) (n : ℤ), 0 ≤ g → g ≤ 6 →
      (|g - n| < 1/2 ∨ (|g - n| = 1/2 ∧ Even n)) →
      LETTER_MAPPING.get? n.toNat = some (grade_to_letter g) := by
    intro g n hg0 hg6 h
    have habs : |g - n| ≤ 1/2 := by
      rcases h with h | h
      · exact h.le
      · exact h.1.le
    rw [abs_le] at habs
    have hn0 : 0 ≤ n := by
      have h1 : (-1 : ℚ) < (n : ℚ) := by linarith [habs.2]
      have h2 : (-1 : ℤ) < n := by exact_mod_cast h1
      omega
    have hn6 : n ≤ 6 := by
      have h1 : (n : ℚ) < 7 := by linarith [habs.1]
      have h2 : n < (7 : ℤ) := by exact_mod_cast h1
      omega
    have hr : pyRound g = n := pyRound_eq h
    rw [grade_to_letter, if_pos ⟨hg0, hg6⟩, hr]
    interval_cases n <;> rfl
  refine ⟨key, ?_, ?_, ?_, ?_⟩
  · intro g hg
    rw [grade_to_letter, if_neg]
    rintro ⟨h1, h2⟩
    rcases hg with h | h <;> linarith
  · have hr : pyRound (0 : ℚ) = 0 := pyRound_eq (Or.inl (by norm_num))
    rw [grade_to_letter, if_pos (by norm_num), hr]
    rfl
  · have hr : pyRound (6 : ℚ) = 6 := pyRound_eq (Or.inl (by norm_num))
    rw [grade_to_letter, if_pos (by norm_num), hr]
    rfl
  · have hr : pyRound ((7 : ℚ)/2) = 4 := by
      apply pyRound_eq
      refine Or.inr ⟨?_, by decide⟩
      rw [show (7 : ℚ)/2 - ((4 : ℤ) : ℚ) = -(1/2) by push_cast; ring]
      rw [abs_neg, abs_of_nonneg (by norm_num : (0 : ℚ) ≤ 1/2)]
    rw [grade_to_letter, if_pos (by norm_num), hr]
    rfl

/-- Counterexample refuting C5 as stated: `grade_to_letter 3.5` is "E"
(3.5 rounds to 4, and position 4 of A..G is "E"), not "D" as the claim's
concrete instance demands. -/
theorem claim_C5_counterexample :
    grade_to_letter ((7 : ℚ)/2) ≠ "D" ∧ grade_to_letter ((7 : ℚ)/2) = "E" := by
  have hr : pyRound ((7 : ℚ)/2) = 4 := by
    apply pyRound_eq
    refine Or.inr ⟨?_, by decide⟩
    rw [show (7 : ℚ)/2 - ((4 : ℤ) : ℚ) = -(1/2) by push_cast; ring]
    rw [abs_neg, abs_of_nonneg (by norm_num : (0 : ℚ) ≤ 1/2)]
  have he : grade_to_letter ((7 : ℚ)/2) = "E" := by
    rw [grade_to_letter, if_pos (by norm_num), hr]
    rfl
  exact ⟨by rw [he]; decide, he⟩

/-- Witness for C5: the rounding clause applied at the tie 2.5 with even
target 2 — true banker's rounding (2.5 goes DOWN to 2, letter "C"). -/
theorem claim_C5_witness :
    (0 ≤ (5 : ℚ)/2 ∧ (5 : ℚ)/2 ≤ 6 ∧
      |(5 : ℚ)/2 - ((2 : ℤ) : ℚ)| = 1/2 ∧ Even (2 : ℤ)) ∧
    LETTER_MAPPING.get? ((2 : ℤ)).toNat = some (grade_to_letter ((5 : ℚ)/2)) := by
  have habs : |(5 : ℚ)/2 - ((2 : ℤ) : ℚ)| = 1/2 := by
    rw [show (5 : ℚ)/2 - ((2 : ℤ) : ℚ) = 1/2 by push_cast; ring]
    rw [abs_of_nonneg (by norm_num : (0 : ℚ) ≤ 1/2)]
  exact ⟨⟨by norm_num, by norm_num, habs, by decide⟩,
    claim_C5.1 ((5 : ℚ)/2) 2 (by norm_num) (by norm_num)
      (Or.inr ⟨habs, by decide⟩)⟩

/-- **C1** (amended): when every answer key with at least 3
underscore-delimited segments has a third segment that is a (whitespace-
trimmed, optionally `+`-signed) nonnegative decimal numeral,
`calculate_all_scores` returns normally; and a record whose key has fewer
than 3 segments, or whose page key is not in the catalog, or whose (already
parsed, nonnegative) question index resolves no collection entry, is
silently skipped, contributing nothing to the accumulated indicator map.
(As stated the claim is false: the source converts `int(parts[2])` BEFORE any
catalog lookup, so a non-numeric third segment raises `ValueError`; see the
counterexample.) -/
theorem claim_C1 (p : Processor) (answers : Answers)
    (h : ∀ kv ∈ answers, 3 ≤ (splitParts kv.1).length →
      ∃ n : Nat, pyInt ((splitParts kv.1).getD 2 "") = some (n : Int)) :
    (∃ r, p.calculate_all_scores answers = some r) ∧
    (∀ (acc : List (String × Int)) (kv : String × AnswerData),
      (splitParts kv.1).length < 3 →
      indicatorStep p.question_files acc kv = some acc) ∧
    (∀ (acc : List (String × Int)) (kv : String × AnswerData) (n : Int),
      3 ≤ (splitParts kv.1).length →
      pyInt ((splitParts kv.1).getD 2 "") = some n →
      dictLookup p.question_files ((splitParts kv.1).getD 0 "") = none →
      indicatorStep p.question_files acc kv = some acc) ∧
    (∀ (cols : List Collection) (cid : String) (qidx g : Int)
      (acc : List (String × Int)),
      (∀ col ∈ cols, col.collection_id = cid →
        (col.questions.length : Int) ≤ qidx) →
      scanCollections cols cid qidx g acc = some acc) := by
  refine ⟨?_, ?_, ?_, ?_⟩
  · rw [Processor.calculate_all_scores]
    by_cases ha : answers = []
    · rw [if_pos ha]
      exact ⟨_, rfl⟩
    · rw [if_neg ha]
      obtain ⟨ind, hind⟩ := foldAnswers_total p.question_files answers h []
      rw [calculate_indicator_scores, hind]
      exact ⟨_, rfl⟩
  · intro acc kv hlen
    unfold indicatorStep
    rw [if_pos hlen]
  · intro acc kv n h3 hn hpage
    unfold indicatorStep
    rw [if_neg (by omega), hn, hpage]
  · intro cols cid qidx g acc hcols
    exact scanCollections_skip cols cid qidx g acc hcols

/-- Counterexample refuting C1 as stated: on the key `"a_b_x"` (3 segments,
page unknown to the catalog), the claim demands a silent skip, but the code
evaluates `int("x")` first and raises `ValueError`: the call does not return
(`none` in the embedding). -/
theorem claim_C1_counterexample :
    exProcessor.calculate_all_scores [("a_b_x", ⟨"A"⟩)] = none := by decide

/-- Witness for C1 at the example inputs: all third segments are numerals,
so the call returns (`isSome`). -/
theorem claim_C1_witness :
    (exProcessor.calculate_all_scores exAnswers).isSome = true := by
  have hh : ∀ kv ∈ exAnswers, 3 ≤ (splitParts kv.1).length →
      ∃ n : Nat, pyInt ((splitParts kv.1).getD 2 "") = some (n : Int) := by
    intro kv hkv
    simp only [exAnswers, List.mem_cons, List.not_mem_nil, or_false] at hkv
    rcases hkv with rfl | rfl
    · exact fun _ => ⟨0, by decide⟩
    · exact fun _ => ⟨1, by decide⟩
  obtain ⟨r, hrr⟩ := (claim_C1 exProcessor exAnswers hh).1
  rw [hrr]
  rfl

/-- **C7** (confirmed): whenever `calculate_all_scores` returns, every
indicator score is an integer in {0,…,6} and every criterion and value score
lies in `[0, 6]`. -/
theorem claim_C7 (p : Processor) (answers : Answers)
    (r : ScoreData × Processor × Answers)
    (hr : p.calculate_all_scores answers = some r) :
    (∀ kv ∈ r.1.indicator_scores, kv.2 ∈ ([0, 1, 2, 3, 4, 5, 6] : List Int)) ∧
    (∀ kv ∈ r.1.criterion_scores, 0 ≤ kv.2 ∧ kv.2 ≤ 6) ∧
    (∀ kv ∈ r.1.value_scores, 0 ≤ kv.2 ∧ kv.2 ≤ 6) := by
  rcases calculate_all_scores_spec hr with ⟨-, hsd, -, -⟩ | ⟨-, hind, hcs, hvs, -, -⟩
  · rw [hsd]
    refine ⟨?_, ?_, ?_⟩ <;> intro kv hkv <;> simp at hkv
  · have hindB : allVals r.1.indicator_scores (fun v => 0 ≤ v ∧ v ≤ 6) :=
      foldAnswers_allVals hind (fun kv hkv => absurd hkv (List.not_mem_nil _))
        option_id_to_grade_bounds
    have hcolB : ∀ col, ∀ x ∈ colScores r.1.indicator_scores col,
        0 ≤ x ∧ x ≤ 6 := by
      intro col x hx
      rcases List.mem_filterMap.1 hx with ⟨q, -, hqs⟩
      unfold questionScore at hqs
      cases hqid : q.question_id with
      | none => rw [hqid] at hqs; cases hqs
      | some qid =>
        rw [hqid] at hqs
        by_cases hq0 : qid = ""
        · simp [hq0] at hqs
        · simp only [Option.some.injEq] at hqs
          simp [hq0] at hqs
          exact hindB _ (dictLookup_mem hqs)
    have hcsB : allVals r.1.criterion_scores (fun v : ℚ => 0 ≤ v ∧ v ≤ 6) := by
      rw [hcs, calculate_criterion_scores_eq]
      refine allVals_foldInsert (fun kv hkv => absurd hkv (List.not_mem_nil _)) ?_
      intro kv hkv
      rcases List.mem_filterMap.1 hkv with ⟨col, -, hentry⟩
      unfold critEntry at hentry
      by_cases hc : colScores r.1.indicator_scores col = []
      · rw [if_pos hc] at hentry; cases hentry
      · rw [if_neg hc] at hentry
        obtain rfl := Option.some.inj hentry
        exact mean_bounds hc (hcolB col)
    have hpageB : ∀ page, ∀ x ∈ pageCritScores r.1.criterion_scores page,
        0 ≤ x ∧ x ≤ 6 := by
      intro page x hx
      rcases List.mem_filterMap.1 hx with ⟨col, -, hcol⟩
      exact hcsB _ (dictLookup_mem hcol)
    have hvsB : allVals r.1.value_scores (fun v : ℚ => 0 ≤ v ∧ v ≤ 6) := by
      rw [hvs, calculate_value_scores_eq]
      refine allVals_foldInsert (fun kv hkv => absurd hkv (List.not_mem_nil _)) ?_
      intro kv hkv
      rcases List.mem_filterMap.1 hkv with ⟨pkv, -, hentry⟩
      unfold valEntry at hentry
      by_cases hc : pageCritScores r.1.criterion_scores pkv.2 = []
      · rw [if_pos hc] at hentry; cases hentry
      · rw [if_neg hc] at hentry
        obtain rfl := Option.some.inj hentry
        exact meanQ_bounds hc (hpageB pkv.2)
    refine ⟨?_, hcsB, hvsB⟩
    intro kv hkv
    have := hindB kv hkv
    simp only [List.mem_cons, List.not_mem_nil, or_false]
    omega

/-- Witness for C7 at the example run, instantiated at one entry of each of
the three maps. -/
theorem claim_C7_witness :
    (exProcessor.calculate_all_scores exAnswers
      = some (exScore, exProcessorAfter, exAnswers)) ∧
    (("I1", (1 : Int)) ∈ exScore.indicator_scores ∧
      (1 : Int) ∈ ([0, 1, 2, 3, 4, 5, 6] : List Int)) ∧
    (("C1", (2 : ℚ)) ∈ exScore.criterion_scores ∧
      0 ≤ (2 : ℚ) ∧ (2 : ℚ) ≤ 6) ∧
    (("Quality", (2 : ℚ)) ∈ exScore.value_scores ∧
      0 ≤ (2 : ℚ) ∧ (2 : ℚ) ≤ 6) := by
  have h := claim_C7 exProcessor exAnswers
    (exScore, exProcessorAfter, exAnswers) exRun
  have hm1 : ("I1", (1 : Int)) ∈ exScore.indicator_scores := by decide
  have hm2 : ("C1", (2 : ℚ)) ∈ exScore.criterion_scores :=
    List.mem_cons_self _ _
  have hm3 : ("Quality", (2 : ℚ)) ∈ exScore.value_scores :=
    List.mem_cons_self _ _
  exact ⟨exRun, ⟨hm1, h.1 _ hm1⟩, ⟨hm2, h.2.1 _ hm2⟩, ⟨hm3, h.2.2 _ hm3⟩⟩

/-- **C8** (confirmed): a second call with the same answers map returns the
identical `ScoreData` and even the identical processor state; the score
cache is written but never read, so it cannot influence the result. -/
theorem claim_C8 (p : Processor) (answers : Answers) (sd : ScoreData)
    (p1 : Processor) (a1 : Answers)
    (h : p.calculate_all_scores answers = some (sd, p1, a1)) :
    p1.calculate_all_scores answers = some (sd, p1, a1) := by
  unfold Processor.calculate_all_scores at h ⊢
  by_cases ha : answers = []
  · rw [if_pos ha] at h ⊢
    simp only [Option.some.injEq, Prod.mk.injEq] at h
    obtain ⟨rfl, rfl, rfl⟩ := h
    rfl
  · rw [if_neg ha] at h ⊢
    cases hind : calculate_indicator_scores p.question_files answers with
    | none => rw [hind] at h; cases h
    | some ind =>
      rw [hind] at h
      simp only [Option.some.injEq, Prod.mk.injEq] at h
      obtain ⟨rfl, rfl, rfl⟩ := h
      have hqf : (Processor.mk p.question_files
          (some (ind, calculate_criterion_scores p.question_files ind,
            calculate_value_scores p.question_files
              (calculate_criterion_scores p.question_files ind)))).question_files
          = p.question_files := rfl
      rw [hqf, hind]

/-- Witness for C8 at the example run: the repeated call is literally the
same `some` value. -/
theorem claim_C8_witness :
    (exProcessor.calculate_all_scores exAnswers
      = some (exScore, exProcessorAfter, exAnswers)) ∧
    exProcessorAfter.calculate_all_scores exAnswers
      = some (exScore, exProcessorAfter, exAnswers) :=
  ⟨exRun, claim_C8 exProcessor exAnswers exScore exProcessorAfter exAnswers exRun⟩

/-- **C9** (confirmed): neither `calculate_all_scores` nor
`get_progress_data` mutates the answers map or the catalog: the post-state
answers are the received answers, and the post-state processor carries the
same `question_files` (`get_progress_data` leaves the whole processor
untouched). -/
theorem claim_C9 (p : Processor) (answers : Answers) :
    (∀ r : ScoreData × Processor × Answers,
      p.calculate_all_scores answers = some r →
      r.2.2 = answers ∧ r.2.1.question_files = p.question_files) ∧
    (p.get_progress_data answers).2.2 = answers ∧
    (p.get_progress_data answers).2.1 = p := by
  refine ⟨?_, rfl, rfl⟩
  intro r hr
  rcases calculate_all_scores_spec hr with ⟨-, -, hp, hans⟩ | ⟨-, -, -, -, hp, hans⟩
  · exact ⟨hans, by rw [hp]⟩
  · exact ⟨hans, by rw [hp]⟩

/-- Witness for C9 at the example run. -/
theorem claim_C9_witness :
    (exProcessor.calculate_all_scores exAnswers
      = some (exScore, exProcessorAfter, exAnswers)) ∧
    (exScore, exProcessorAfter, exAnswers).2.2 = exAnswers ∧
    (exScore, exProcessorAfter, exAnswers).2.1.question_files
      = exProcessor.question_files :=
  ⟨exRun, (claim_C9 exProcessor exAnswers).1 (exScore, exProcessorAfter, exAnswers) exRun⟩

theorem critEntries_filter_key (qf : Catalog) (ind : List (String × Int))
    (c : String) :
    (critEntries qf ind).filter (fun kv => decide (kv.1 = c))
      = ((flatCollections qf).filter
          (fun k => decide (k.collection_id = c))).filterMap (critEntry ind) := by
  unfold critEntries
  exact filter_filterMap_key _ _ (fun k : Collection => k.collection_id)
    (fun x kv h => critEntry_key h) c

theorem valEntries_filter_key (qf : Catalog) (cs : List (String × ℚ))
    (t : String) :
    (valEntries qf cs).filter (fun kv => decide (kv.1 = t))
      = (qf.filter
          (fun pkv => decide (displayTitle pkv.1 pkv.2 = t))).filterMap
          (valEntry cs) := by
  unfold valEntries
  exact filter_filterMap_key _ _
    (fun pkv : String × Page => displayTitle pkv.1 pkv.2)
    (fun x kv h => valEntry_key h) t

/-- **C4** (confirmed): for a page of the catalog (whose key is not the
reserved `"overall"`), `get_progress_data` reports `total` as the sum of
question counts over the page's collections, `answered` as the count of
answer keys with prefix `"<page>_<collection_id>"` summed over collections,
and `progress = answered/total` (0 when `total = 0`); the `"overall"` row
holds the raw sums over all pages, with ratio 0 when the grand total is 0. -/
theorem claim_C4 (p : Processor) (answers : Answers) (pk : String) (page : Page)
    (hmem : (pk, page) ∈ p.question_files)
    (hnd : (p.question_files.map Prod.fst).Nodup)
    (hpk : pk ≠ "overall") :
    dictLookup (p.get_progress_data answers).1 pk
      = some (pageEntry answers pk page) ∧
    dictLookup (p.get_progress_data answers).1 "overall"
      = some ⟨grandTotal p.question_files,
              grandAnswered p.question_files answers,
              if 0 < grandTotal p.question_files then
                (grandAnswered p.question_files answers : ℚ)
                  / (grandTotal p.question_files : ℚ)
              else 0⟩ := by
  have hdata : (p.get_progress_data answers).1
      = dictInsert (foldInsert [] (progressEntries p.question_files answers))
          "overall"
          ⟨grandTotal p.question_files, grandAnswered p.question_files answers,
           if 0 < grandTotal p.question_files then
             (grandAnswered p.question_files answers : ℚ)
               / (grandTotal p.question_files : ℚ)
           else 0⟩ := by
    unfold Processor.get_progress_data
    rw [progressFold_eq]
    simp
  rw [hdata]
  constructor
  · rw [dictLookup_dictInsert, if_neg hpk, dictLookup_foldInsert_nil]
    have hkeys : (progressEntries p.question_files answers).map Prod.fst
        = p.question_files.map Prod.fst := by
      simp [progressEntries, List.map_map, Function.comp]
    have hnd2 : ((progressEntries p.question_files answers).map Prod.fst).Nodup := by
      rw [hkeys]
      exact hnd
    have hm2 : (pk, pageEntry answers pk page)
        ∈ progressEntries p.question_files answers :=
      List.mem_map.2 ⟨(pk, page), hmem, rfl⟩
    rw [filter_key_singleton_of_nodup hnd2 hm2]
    rfl
  · rw [dictLookup_dictInsert, if_pos rfl]

/-- Witness for C4 at the example inputs. -/
theorem claim_C4_witness :
    ((("Q1", exPage) ∈ exProcessor.question_files) ∧
     (exProcessor.question_files.map Prod.fst).Nodup ∧
     ("Q1" : String) ≠ "overall") ∧
    (dictLookup (exProcessor.get_progress_data exAnswers).1 "Q1"
      = some (pageEntry exAnswers "Q1" exPage) ∧
     dictLookup (exProcessor.get_progress_data exAnswers).1 "overall"
      = some ⟨grandTotal exProcessor.question_files,
              grandAnswered exProcessor.question_files exAnswers,
              if 0 < grandTotal exProcessor.question_files then
                (grandAnswered exProcessor.question_files exAnswers : ℚ)
                  / (grandTotal exProcessor.question_files : ℚ)
              else 0⟩) :=
  ⟨⟨by decide, by decide, by decide⟩,
   claim_C4 exProcessor exAnswers "Q1" exPage (by decide) (by decide) (by decide)⟩

/-- **C2** (amended): for a collection id `c` occurring in exactly one
collection `col` of the catalog, the criterion map of a completed
`calculate_all_scores` run has an entry for `c` iff at least one question of
`col` carries an explicit non-empty `question_id` present in the indicator
map (`questionScore` is `some`), and the entry is the arithmetic mean of the
indicator scores of exactly those questions.  (As stated the claim is false:
a question whose grade sits in the indicator map under its FALLBACK id never
contributes — see the counterexample.) -/
theorem claim_C2 (p : Processor) (answers : Answers)
    (r : ScoreData × Processor × Answers)
    (hr : p.calculate_all_scores answers = some r)
    (c : String) (col : Collection)
    (hc : (flatCollections p.question_files).filter
        (fun k => decide (k.collection_id = c)) = [col]) :
    ∀ v : ℚ,
      dictLookup r.1.criterion_scores c = some v ↔
        ((∃ q ∈ col.questions,
            (questionScore r.1.indicator_scores q).isSome) ∧
         v = mean (colScores r.1.indicator_scores col)) := by
  intro v
  rcases calculate_all_scores_spec hr with ⟨-, hsd, -, -⟩ | ⟨-, -, hcs, -, -, -⟩
  · rw [hsd]
    simp [dictLookup, questionScore_nil]
  · rw [hcs, calculate_criterion_scores_eq, dictLookup_foldInsert_nil,
      critEntries_filter_key, hc]
    by_cases hce : colScores r.1.indicator_scores col = []
    · have hnone : critEntry r.1.indicator_scores col = none := by
        simp [critEntry, hce]
      have hnex : ¬∃ q ∈ col.questions,
          (questionScore r.1.indicator_scores q).isSome :=
        fun hex => (colScores_ne_nil_iff _ _).2 hex hce
      simp [hnone, hnex]
    · have hsome : critEntry r.1.indicator_scores col
          = some (col.collection_id, mean (colScores r.1.indicator_scores col)) := by
        simp [critEntry, hce]
      have hex : ∃ q ∈ col.questions,
          (questionScore r.1.indicator_scores q).isSome :=
        (colScores_ne_nil_iff _ _).1 hce
      simp only [List.filterMap_cons, hsome, List.filterMap_nil,
        List.getLast?_singleton, Option.map_some]
      constructor
      · intro h
        exact ⟨hex, (Option.some.inj h).symm⟩
      · rintro ⟨-, rfl⟩
        rfl

/-- Counterexample refuting C2 as stated, in both directions the amendment
needs: (1) a question without `question_id`, scored in the indicator map
under its fallback id `"c_0"`, yields NO criterion entry for its collection
`"c"`; (2) with the same collection id `"C1"` in two questionnaires, the one
shared criterion entry holds the second questionnaire's mean 3, not the
first one's mean 1. -/
theorem claim_C2_counterexample :
    (fbProcessor.calculate_all_scores fbAnswers
      = some (fbScore, fbProcessorAfter, fbAnswers)) ∧
    dictLookup fbScore.indicator_scores ("c" ++ "_" ++ toString (0 : Int))
      = some 1 ∧
    dictLookup fbScore.criterion_scores "c" = none ∧
    (colProcessor.calculate_all_scores colAnswers
      = some (colScore, colProcessorAfter, colAnswers)) ∧
    dictLookup colScore.criterion_scores "C1" = some 3 ∧
    mean [(1 : Int)] ≠ 3 :=
  ⟨fbRun, by decide, rfl, colRun, rfl, by norm_num [mean]⟩

/-- Witness for C2: at the example run the criterion entry of `"C1"` exists
and equals the mean 2 of its two explicitly-id'd questions. -/
theorem claim_C2_witness :
    dictLookup exScore.criterion_scores "C1" = some 2 := by
  apply ((claim_C2 exProcessor exAnswers (exScore, exProcessorAfter, exAnswers)
    exRun "C1" exCol (by decide)) 2).2
  constructor
  · refine ⟨{ question_id := some "I1" }, by decide, ?_⟩
    simp [questionScore, dictLookup, exScore]
  · simp [colScores, questionScore, dictLookup, exScore, exCol, mean]
    norm_num

/-- **C3** (confirmed, under the implicit premise that display titles are
unambiguous, stated as: this page is the only one with its display title):
the value map of a completed run has an entry under the page's display title
(`questionnaire_info.title`, page key as fallback) iff at least one of the
page's collections is present in the criterion map, and the entry is the
arithmetic mean of exactly those collections' criterion scores. -/
theorem claim_C3 (p : Processor) (answers : Answers)
    (r : ScoreData × Processor × Answers)
    (hr : p.calculate_all_scores answers = some r)
    (pk : String) (page : Page)
    (ht : p.question_files.filter
        (fun pkv => decide (displayTitle pkv.1 pkv.2 = displayTitle pk page))
        = [(pk, page)]) :
    ∀ v : ℚ,
      dictLookup r.1.value_scores (displayTitle pk page) = some v ↔
        ((∃ col ∈ page.question_collections,
            (dictLookup r.1.criterion_scores col.collection_id).isSome) ∧
         v = meanQ (pageCritScores r.1.criterion_scores page)) := by
  intro v
  rcases calculate_all_scores_spec hr with ⟨-, hsd, -, -⟩ | ⟨-, -, -, hvs, -, -⟩
  · rw [hsd]
    simp [dictLookup]
  · rw [hvs, calculate_value_scores_eq, dictLookup_foldInsert_nil,
      valEntries_filter_key, ht]
    have hiff : pageCritScores r.1.criterion_scores page ≠ [] ↔
        ∃ col ∈ page.question_collections,
          (dictLookup r.1.criterion_scores col.collection_id).isSome := by
      rw [pageCritScores, Ne, List.filterMap_eq_nil_iff]
      push_neg
      constructor
      · rintro ⟨col, hcol, hne⟩
        exact ⟨col, hcol, Option.ne_none_iff_isSome.1 hne⟩
      · rintro ⟨col, hcol, hs⟩
        exact ⟨col, hcol, Option.ne_none_iff_isSome.2 hs⟩
    by_cases hpe : pageCritScores r.1.criterion_scores page = []
    · have hnone : valEntry r.1.criterion_scores (pk, page) = none := by
        simp [valEntry, hpe]
      have hnex : ¬∃ col ∈ page.question_collections,
          (dictLookup r.1.criterion_scores col.collection_id).isSome :=
        fun hex => (hiff.2 hex) hpe
      simp [hnone, hnex]
    · have hsome : valEntry r.1.criterion_scores (pk, page)
          = some (displayTitle pk page,
              meanQ (pageCritScores r.1.criterion_scores page)) := by
        simp [valEntry, hpe]
      have hex := hiff.1 hpe
      simp only [List.filterMap_cons, hsome, List.filterMap_nil,
        List.getLast?_singleton, Option.map_some]
      constructor
      · intro h
        exact ⟨hex, (Option.some.inj h).symm⟩
      · rintro ⟨-, rfl⟩
        rfl

/-- Witness for C3: at the example run the value entry under the display
title "Quality" is the criterion mean 2. -/
theorem claim_C3_witness :
    dictLookup exScore.value_scores (displayTitle "Q1" exPage) = some 2 := by
  apply ((claim_C3 exProcessor exAnswers (exScore, exProcessorAfter, exAnswers)
    exRun "Q1" exPage (by decide)) 2).2
  constructor
  · refine ⟨exCol, by decide, ?_⟩
    simp [dictLookup, exScore, exCol]
  · simp [pageCritScores, dictLookup, exScore, exPage, exCol, meanQ]

/-- **C10** (confirmed): the criterion map is keyed by `collection_id` alone:
for every id `c` it holds at most one entry; that entry (when present) is the
mean of the LAST collection with id `c` and a nonempty score list in catalog
iteration order; every page containing a collection with id `c` consumes that
same shared entry in its value-pass score list; and the value map is exactly
the value pass applied to the one shared criterion map. -/
theorem claim_C10 (p : Processor) (answers : Answers)
    (r : ScoreData × Processor × Answers)
    (hr : p.calculate_all_scores answers = some r) :
    ∀ c : String,
      keyCount r.1.criterion_scores c ≤ 1 ∧
      dictLookup r.1.criterion_scores c
        = (((flatCollections p.question_files).filter
            (fun col => decide (col.collection_id = c) &&
              decide (colScores r.1.indicator_scores col ≠ []))).getLast?).map
            (fun col => mean (colScores r.1.indicator_scores col)) ∧
      (∀ pk2 page2, (pk2, page2) ∈ p.question_files →
        ∀ col2 ∈ page2.question_collections, col2.collection_id = c →
        ∀ v : ℚ, dictLookup r.1.criterion_scores c = some v →
          v ∈ pageCritScores r.1.criterion_scores page2) ∧
      r.1.value_scores
        = calculate_value_scores p.question_files r.1.criterion_scores := by
  obtain ⟨⟨ind1, cs1, vs1⟩, p1, a1⟩ := r
  intro c
  have hshare : ∀ pk2 page2, (pk2, page2) ∈ p.question_files →
      ∀ col2 ∈ page2.question_collections, col2.collection_id = c →
      ∀ v : ℚ, dictLookup cs1 c = some v →
        v ∈ pageCritScores cs1 page2 := by
    intro pk2 page2 hmem col2 hcol2 hcid v hv
    unfold pageCritScores
    refine List.mem_filterMap.2 ⟨col2, hcol2, ?_⟩
    rw [hcid]
    exact hv
  rcases calculate_all_scores_spec hr with ⟨-, hsd, -, -⟩ | ⟨-, -, hcs, hvs, -, -⟩
  · replace hsd : ScoreData.mk ind1 cs1 vs1 = ⟨[], [], []⟩ := hsd
    injection hsd with h1 h2 h3
    subst h1
    subst h2
    subst h3
    refine ⟨?_, ?_, hshare, ?_⟩
    · simp [keyCount]
    · have hfil : (flatCollections p.question_files).filter
          (fun col => decide (col.collection_id = c) &&
            decide (colScores ([] : List (String × Int)) col ≠ [])) = [] :=
        List.filter_eq_nil_iff.2 (fun a _ => by simp [colScores_nil])
      show dictLookup ([] : List (String × ℚ)) c = _
      rw [hfil]
      rfl
    · exact (calculate_value_scores_of_nil p.question_files).symm
  · replace hcs : cs1 = calculate_criterion_scores p.question_files ind1 := hcs
    replace hvs : vs1 = calculate_value_scores p.question_files cs1 := hvs
    refine ⟨?_, ?_, hshare, hvs⟩
    · rw [hcs, calculate_criterion_scores_eq]
      exact keyCount_foldInsert_le _ (fun b => by simp [keyCount]) c
    · rw [hcs, calculate_criterion_scores_eq, dictLookup_foldInsert_nil,
        critEntries_filter_key, filterMap_critEntry_eq, List.getLast?_map]
      have hsplit : ((flatCollections p.question_files).filter
            (fun k => decide (k.collection_id = c))).filter
            (fun col => decide (colScores ind1 col ≠ []))
          = (flatCollections p.question_files).filter
            (fun col => decide (col.collection_id = c) &&
              decide (colScores ind1 col ≠ [])) := by
        rw [List.filter_filter]
        exact List.filter_congr (fun a _ => by rw [Bool.and_comm])
      rw [hsplit, Option.map_map]
      rfl

/-- Witness for C10 at the shared-id catalog: the single entry for `"C1"`
holds 3 (the mean of the last questionnaire's collection), and the first
questionnaire's value pass consumes that same 3. -/
theorem claim_C10_witness :
    (colProcessor.calculate_all_scores colAnswers
      = some (colScore, colProcessorAfter, colAnswers)) ∧
    keyCount colScore.criterion_scores "C1" ≤ 1 ∧
    dictLookup colScore.criterion_scores "C1"
      = (((flatCollections colCatalog).filter
          (fun col => decide (col.collection_id = "C1") &&
            decide (colScores colScore.indicator_scores col ≠ []))).getLast?).map
          (fun col => mean (colScores colScore.indicator_scores col)) ∧
    ((3 : ℚ) ∈ pageCritScores colScore.criterion_scores colPage1) ∧
    colScore.value_scores
      = calculate_value_scores colCatalog colScore.criterion_scores := by
  have h := claim_C10 colProcessor colAnswers
    (colScore, colProcessorAfter, colAnswers) colRun "C1"
  exact ⟨colRun, h.1, h.2.1,
    h.2.2.1 "P1" colPage1 (by decide) colCol1 (by decide) rfl 3 rfl, h.2.2.2⟩

end VCIO
